import Mathlib

/-!
Verification of the Poedit auto-translation engine
(`src/poedit_auto_translator.py`) against its specification.

Texts are modelled as lists of characters (`Str`), and the Python string
primitives used by the program (`str.strip`, `str.isspace`, `str.replace`,
substring containment) are embedded as executable Lean functions.  The
translation loop, the result-wait/consistency routine, the hotkey handler
and the start-precondition check are embedded as pure functions over
explicit environments describing what the external world (clipboard,
synthetic input, the run flag) supplies at each interaction point.
-/

namespace Poedit

/-- Texts are modelled as lists of characters. -/
abbrev Str := List Char

/-- Characters treated as whitespace by Python's `str.strip()` / `str.isspace()`
(ASCII range, which is what the program's texts use). -/
def pyWS (c : Char) : Bool :=
  c = ' ' || c = '\t' || c = '\n' || c = '\r' || c = '\x0b' || c = '\x0c'

/-- Python `str.strip()`: remove leading and trailing whitespace. -/
def pyStrip (s : Str) : Str :=
  ((s.dropWhile pyWS).reverse.dropWhile pyWS).reverse

/-- Python `str.isspace()`: non-empty and consisting solely of whitespace. -/
def pyIsSpace (s : Str) : Bool :=
  !s.isEmpty && s.all pyWS

/-- Fueled worker for `pyReplace`; the fuel dominates the length of the
text, so the `0` case with a non-empty text is never reached. -/
def pyReplaceAux (pat rep : Str) : Nat → Str → Str
  | 0, s => s
  | fuel + 1, s =>
    match s with
    | [] => []
    | c :: t =>
      if pat.isPrefixOf (c :: t) ∧ pat ≠ [] then
        rep ++ pyReplaceAux pat rep fuel (t.drop (pat.length - 1))
      else
        c :: pyReplaceAux pat rep fuel t

/-- Python `str.replace(old, new)` for non-empty `old`: scan left to right,
replacing non-overlapping occurrences.  (The program only ever calls
`replace` with a non-empty pattern; an empty pattern acts as the identity
here.) -/
def pyReplace (pat rep s : Str) : Str :=
  pyReplaceAux pat rep s.length s

/-- Python substring containment `pat in s`. -/
def containsL (pat : Str) : Str → Bool
  | [] => pat.isEmpty
  | c :: t => pat.isPrefixOf (c :: t) || containsL pat t

/-! ### The newline placeholder protocol (§6 of the spec)

`paste_to_translation_service` (lines 709-714) encodes outgoing text;
`wait_for_translation_result` (lines 947-952) decodes incoming text. -/

/-- The sentinel token `__NL_114514__`. -/
def SENT : Str := "__NL_114514__".data

/-- The leading fragment `__NL_114514` of the sentinel (the sentinel minus
its two closing underscores); a text containing this fragment is
"sentinel-like". -/
def SENTP : Str := "__NL_114514".data

/-- Outgoing newline-to-sentinel substitution: normalise CRLF and CR to
LF, then replace each LF by the sentinel token. -/
def encodeNewlines (t : Str) : Str :=
  pyReplace ['\n'] SENT (pyReplace ['\r'] ['\n'] (pyReplace ['\r', '\n'] ['\n'] t))

/-- Incoming sentinel-to-newline substitution: if the sentinel occurs,
replace it by LF and then normalise CRLF and CR to LF; otherwise leave the
text unchanged. -/
def decodeNewlines (t : Str) : Str :=
  if containsL SENT t then
    pyReplace ['\r'] ['\n'] (pyReplace ['\r', '\n'] ['\n'] (pyReplace SENT ['\n'] t))
  else t

/-! ### Clipboard reads and the result-wait routine -/

/-- `ClipboardMonitor.get_clipboard_content` (lines 36-42): returns the
clipboard text stripped of surrounding whitespace, or the empty string if
the clipboard read raises (`none` models a raising read). -/
def get_clipboard_content : Option Str → Str
  | none => []
  | some raw => pyStrip raw

/-- One interaction of the engine with a text field: synthetic input
(click / select-all / copy) followed by a clipboard read
(`get_poedit_source_text` / `get_poedit_target_text`, lines 672-704).
`actionExc` models a raising synthetic-input call — caught inside the
helper, which then returns the empty string. -/
inductive ReadOutcome
  | actionExc : ReadOutcome
  | clip : Option Str → ReadOutcome
deriving DecidableEq

/-- The text produced by `get_poedit_source_text` / `get_poedit_target_text`. -/
def readText : ReadOutcome → Str
  | .actionExc => []
  | .clip raw => get_clipboard_content raw

/-- One copy attempt inside `wait_for_translation_result`: a raising
synthetic copy action propagates to the routine's outer handler
(`actionRaise`); otherwise the clipboard is read (a raising clipboard
read yields the empty string). -/
inductive CopySample
  | actionRaise : CopySample
  | clip : Option Str → CopySample
deriving DecidableEq

def CopySample.val : CopySample → Str
  | .actionRaise => []
  | .clip raw => get_clipboard_content raw

/-- Lines 863-865: the comparison text, with the sentinel decoded back to
LF when newline conversion is enabled. -/
def comparisonOf (conv : Bool) (t : Str) : Str :=
  if conv && containsL SENT t then pyReplace SENT ['\n'] t else t

/-- The acceptance ("fresh") condition of the consistency check (lines
868-877): not equal to the trimmed original, non-blank and differing from
the original after trimming, and not a repeat of the previous field's
translation. This is exactly the condition under which the polling loop
breaks with the current sample. -/
def isFresh (conv : Bool) (original last t : Str) : Prop :=
  comparisonOf conv t ≠ pyStrip original ∧
  (comparisonOf conv t ≠ [] ∧ pyIsSpace (comparisonOf conv t) = false ∧
    pyStrip (comparisonOf conv t) ≠ pyStrip original) ∧
  ¬ (last ≠ [] ∧ pyStrip (comparisonOf conv t) = pyStrip last)

instance (conv : Bool) (original last t : Str) :
    Decidable (isFresh conv original last t) := by
  unfold isFresh
  infer_instance

/-- The consistency-check polling loop (lines 861-933), parameterised by
the remaining attempt budget (`max_checks - check_count`) and the current
check index `k`.  `samples k` is the copy attempt performed after check
`k`; `running k` is the value of the run flag read when entering check
`k`.  Returns `none` when a copy attempt raises (the exception propagates
to the routine's outer handler), otherwise the sample held when the loop
exits. -/
def consistencyLoop (conv : Bool) (original last : Str)
    (samples : Nat → CopySample) (running : Nat → Bool) :
    Nat → Nat → Str → Option Str
  | 0, _, t => some t
  | remaining + 1, k, t =>
    if running k then
      let next : Option Str :=
        match samples k with
        | .actionRaise => none
        | s => consistencyLoop conv original last samples running remaining (k + 1) s.val
      if comparisonOf conv t = pyStrip original then
        next
      else if comparisonOf conv t ≠ [] ∧ pyIsSpace (comparisonOf conv t) = false ∧
          pyStrip (comparisonOf conv t) ≠ pyStrip original then
        if last ≠ [] ∧ pyStrip (comparisonOf conv t) = pyStrip last then next
        else some t
      else
        next
    else some t

/-- Configuration read by `wait_for_translation_result`. -/
structure WaitCfg where
  checkConsistency : Bool
  convertNewlines : Bool
  maxChecks : Nat
deriving DecidableEq

/-- What the external world supplies during one call of
`wait_for_translation_result`. -/
structure WaitEnv where
  baselineRaise : Bool          -- the baseline clipboard write raising (line 813)
  first : CopySample            -- the initial copy attempt (lines 816-851)
  samples : Nat → CopySample    -- the retry copy attempts (lines 887-933)
  running : Nat → Bool          -- run-flag reads at each poll entry (line 861)

/-- The tail of `wait_for_translation_result` (lines 947-961): decode the
sentinel if newline conversion is enabled, then return the text if
non-blank, the empty string otherwise. -/
def finishWait (conv : Bool) (t : Str) : Str :=
  let t' := if conv then decodeNewlines t else t
  if t' ≠ [] ∧ pyIsSpace t' = false then t' else []

/-- `wait_for_translation_result` (lines 804-961): perform the first copy
attempt, optionally run the consistency polling loop, decode the sentinel
if newline conversion is enabled, and return the result if non-blank; any
raise inside, and a blank final sample, yield the empty string.  (The
scroll-to-top gesture swallows its own exceptions and does not affect the
returned text, so it is not modelled.) -/
def wait_for_translation_result (cfg : WaitCfg) (original last : Str)
    (env : WaitEnv) : Str :=
  if env.baselineRaise then []
  else
    match env.first with
    | .actionRaise => []
    | s =>
      match (if cfg.checkConsistency then
              consistencyLoop cfg.convertNewlines original last env.samples env.running
                cfg.maxChecks 0 s.val
            else some s.val) with
      | none => []
      | some t => finishWait cfg.convertNewlines t

/-- The sequence of sample values the polling loop classifies: index `0`
is the initial copy attempt, index `j + 1` the value produced by retry
`j`. -/
def sampleSeq (env : WaitEnv) : Nat → Str
  | 0 => env.first.val
  | j + 1 => (env.samples j).val

/-! ### The translation loop -/

/-- Configuration read by the translation loop. -/
structure LoopCfg where
  skipTranslated : Bool
  checkConsistency : Bool
  convertNewlines : Bool
  maxChecks : Nat
deriving DecidableEq

/-- Mutable per-run state of the loop (`same_source_count`,
`last_source_text`, `last_translated_text`). -/
structure LoopState where
  sameSourceCount : Nat
  lastSourceText : Str
  lastTranslatedText : Str
deriving DecidableEq

/-- What the external world supplies during one iteration of
`translation_loop`.  The `r*` fields are the successive reads of the
`is_running` flag (lines 582, 585, 586, 605, 615, 629, 634, 635, 648);
the `*Raise` flags model synthetic-input calls raising inside helpers
that catch their own exceptions and therefore do not alter control
flow. -/
structure IterIn where
  r0 : Bool                  -- line 582, while condition
  sourceRead : ReadOutcome   -- get_poedit_source_text
  r1a : Bool                 -- line 585
  r1b : Bool                 -- line 586
  r2 : Bool                  -- line 605
  targetRead : ReadOutcome   -- get_poedit_target_text
  r3 : Bool                  -- line 615
  pasteServiceRaise : Bool   -- paste_to_translation_service raising (caught, line 733)
  r4 : Bool                  -- line 629
  wait : WaitEnv             -- wait_for_translation_result interactions
  r5a : Bool                 -- line 634
  r5b : Bool                 -- line 635
  failClickRaise : Bool      -- click of the target box on the failure path (caught, line 643)
  r6 : Bool                  -- line 648
  pasteTargetRaise : Bool    -- paste_to_poedit_target raising (caught, line 978)
  nextItemRaise : Bool       -- next_translation_item raising (caught, line 986)

/-- How one loop iteration ended. -/
inductive Outcome
  | stopped            : Outcome  -- a read of the run flag came back false
  | noMoreContent      : Outcome  -- empty source text, line 589
  | naturalCompletion  : Outcome  -- repeat counter reached 3, line 597
  | next               : Outcome  -- proceed to the next field
deriving DecidableEq

/-- Observable result of one loop iteration. -/
structure StepOut where
  outcome : Outcome
  state : LoopState
  dispatched : Bool          -- paste_to_translation_service was invoked
  pastedTarget : Option Str  -- payload of paste_to_poedit_target, if invoked
  navigated : Bool           -- next_translation_item was invoked
deriving DecidableEq

/-- The dispatch-and-write-back tail of one iteration (lines 615-659):
run-flag check, dispatch to the translation service, result wait, then
either the failure path (navigate on) or the write-back path. -/
def stepTranslate (cfg : LoopCfg) (s1 : LoopState) (sourceText : Str)
    (e : IterIn) : StepOut :=
  if e.r3 = false then ⟨.stopped, s1, false, none, false⟩
  else if e.r4 = false then ⟨.stopped, s1, true, none, false⟩
  else
    let translated := wait_for_translation_result
      ⟨cfg.checkConsistency, cfg.convertNewlines, cfg.maxChecks⟩
      sourceText s1.lastTranslatedText e.wait
    if translated = [] ∨ e.r5a = false then
      if e.r5b = false then ⟨.stopped, s1, true, none, false⟩
      else ⟨.next, s1, true, none, true⟩
    else if e.r6 = false then ⟨.stopped, s1, true, none, false⟩
    else ⟨.next, ⟨s1.sameSourceCount, s1.lastSourceText, translated⟩, true,
      some translated, true⟩

/-- One iteration of `translation_loop` (lines 582-665). -/
def stepIter (cfg : LoopCfg) (s : LoopState) (e : IterIn) : StepOut :=
  if e.r0 = false then ⟨.stopped, s, false, none, false⟩
  else
    let sourceText := readText e.sourceRead
    if sourceText = [] ∨ e.r1a = false then
      if e.r1b = false then ⟨.stopped, s, false, none, false⟩
      else ⟨.noMoreContent, s, false, none, false⟩
    else
      let cnt := if sourceText = s.lastSourceText then s.sameSourceCount + 1 else 0
      if sourceText = s.lastSourceText ∧ 3 ≤ cnt then
        ⟨.naturalCompletion, ⟨cnt, s.lastSourceText, s.lastTranslatedText⟩,
          false, none, false⟩
      else
        let s1 : LoopState := ⟨cnt, sourceText, s.lastTranslatedText⟩
        if e.r2 = false then ⟨.stopped, s1, false, none, false⟩
        else
          let targetText := readText e.targetRead
          if cfg.skipTranslated = true ∧ targetText ≠ [] ∧ pyStrip targetText ≠ [] then
            ⟨.next, s1, false, none, true⟩
          else stepTranslate cfg s1 sourceText e

/-- The translation loop: the result of iteration `n`, starting from state
`s0` (iteration `n` starts from the state left by iteration `n - 1`). -/
def loopSteps (cfg : LoopCfg) (env : Nat → IterIn) (s0 : LoopState) : Nat → StepOut
  | 0 => stepIter cfg s0 (env 0)
  | n + 1 => stepIter cfg (loopSteps cfg env s0 n).state (env (n + 1))

/-- The state with which a run begins (`start_translation`, lines 558-560,
resets the repeat counter and the last source text; `last_translated_text`
starts empty on a fresh program run). -/
def initState : LoopState := ⟨0, [], []⟩

/-- The state with which iteration `n` begins. -/
def prevState (cfg : LoopCfg) (env : Nat → IterIn) (s0 : LoopState) : Nat → LoopState
  | 0 => s0
  | n + 1 => (loopSteps cfg env s0 n).state

/-- C1, counterexample configuration: skipping disabled, consistency
checking disabled, a fixed source text supplied forever, the run flag held
and an always-fresh translation available. -/
def envC1 : Nat → IterIn := fun _ =>
  { r0 := true
    sourceRead := ReadOutcome.clip (some "hello".data)
    r1a := true
    r1b := true
    r2 := true
    targetRead := ReadOutcome.clip (some [])
    r3 := true
    pasteServiceRaise := false
    r4 := true
    wait := ⟨false, CopySample.clip (some "bonjour".data),
      fun _ => CopySample.clip (some "bonjour".data), fun _ => true⟩
    r5a := true
    r5b := true
    failClickRaise := false
    r6 := true
    pasteTargetRaise := false
    nextItemRaise := false }

def cfgC1 : LoopCfg := ⟨false, false, false, 3⟩

/-- C7, counterexample environment: the synthetic-input actions of source
extraction raise. -/
def envC7 : IterIn :=
  { envC1 0 with sourceRead := ReadOutcome.actionExc }

/-! ### The hotkey control plane (`setup_hotkey_listener`, lines 342-419) -/

/-- Python `str.split(sep)` for a single-character separator. -/
def pySplitOn (sep : Char) : Str → List Str
  | [] => [[]]
  | c :: t =>
    if c = sep then [] :: pySplitOn sep t
    else
      match pySplitOn sep t with
      | [] => [[c]]
      | w :: ws => (c :: w) :: ws

/-- Python `str.lower()`. -/
def pyLower (s : Str) : Str := s.map Char.toLower

/-- The three modifier key names recognised by the handler. -/
def MODS : List Str := ["ctrl".data, "alt".data, "shift".data]

/-- Parsing of a hotkey combination string (lines 355-356): strip and
lowercase the whole string, split on `+`, strip each part and keep the
non-empty ones. -/
def comboParts (raw : Str) : List Str :=
  ((pySplitOn '+' (pyLower (pyStrip raw))).map pyStrip).filter (fun p => decide (p ≠ []))

/-- The modifier set of a combination (line 357). -/
def comboModifiers (raw : Str) : List Str :=
  (comboParts raw).filter (fun p => decide (p ∈ MODS))

/-- The main key of a combination: the last part that is not a modifier
(line 358). -/
def comboMainKey (raw : Str) : Option Str :=
  (comboParts raw).reverse.find? (fun p => decide (p ∉ MODS))

/-- The modifier condition tested by the handler (lines 380-389): every
configured modifier is held and no modifier outside the set is held. -/
def modifiersMatch (raw : Str) (pressed : Str → Bool) : Prop :=
  (∀ m ∈ comboModifiers raw, pressed m = true) ∧
  (∀ m ∈ MODS, m ∉ comboModifiers raw → pressed m = false)

instance (raw : Str) (pressed : Str → Bool) : Decidable (modifiersMatch raw pressed) := by
  unfold modifiersMatch
  infer_instance

/-- Whether one hotkey spec fires for a key event (lines 378-390): the
main key exists and is non-empty, the event's key name equals it, and the
modifier condition holds. -/
def specTriggers (raw : Str) (eventName : Str) (pressed : Str → Bool) : Bool :=
  match comboMainKey raw with
  | some k => if k ≠ [] ∧ eventName = k then decide (modifiersMatch raw pressed) else false
  | none => false

inductive HotkeyAction
  | noAction : HotkeyAction
  | start : HotkeyAction
  | stop : HotkeyAction
deriving DecidableEq

/-- The installed key-event handler (lines 366-413): ignores events while
key binding is in progress and all non-key-down events, then tests the
start spec and the stop spec in that order. -/
def hotkeyHandler (startRaw stopRaw : Str) (isBinding : Bool)
    (eventType eventName : Str) (pressed : Str → Bool) : HotkeyAction :=
  if isBinding = true then HotkeyAction.noAction
  else if eventType ≠ "down".data then HotkeyAction.noAction
  else if specTriggers startRaw eventName pressed then HotkeyAction.start
  else if specTriggers stopRaw eventName pressed then HotkeyAction.stop
  else HotkeyAction.noAction

/-! ### Start preconditions (`start_translation`, lines 536-566) -/

/-- The named screen coordinates. -/
inductive CoordKey
  | poedit_source : CoordKey
  | poedit_target : CoordKey
  | service_source : CoordKey
  | service_copy_button : CoordKey
  | service_result_box : CoordKey
  | scroll_gesture_position : CoordKey
deriving DecidableEq

/-- The coordinate registry (`self.coordinates`): each named point is set
or unset. -/
structure Coords where
  poedit_source : Option (Int × Int)
  poedit_target : Option (Int × Int)
  service_source : Option (Int × Int)
  service_copy_button : Option (Int × Int)
  service_result_box : Option (Int × Int)
  scroll_gesture_position : Option (Int × Int)
deriving DecidableEq

def getCoord (c : Coords) : CoordKey → Option (Int × Int)
  | .poedit_source => c.poedit_source
  | .poedit_target => c.poedit_target
  | .service_source => c.service_source
  | .service_copy_button => c.service_copy_button
  | .service_result_box => c.service_result_box
  | .scroll_gesture_position => c.scroll_gesture_position

/-- The required coordinates, in check order (lines 539-547): the three
base coordinates, the result box for copy methods 1-3 and the copy button
otherwise, plus the gesture position when the scroll gesture is enabled. -/
def requiredKeys (copyMethod : Int) (useScrollGesture : Bool) : List CoordKey :=
  [CoordKey.poedit_source, CoordKey.poedit_target, CoordKey.service_source] ++
  (if copyMethod = 1 ∨ copyMethod = 2 ∨ copyMethod = 3 then [CoordKey.service_result_box]
   else [CoordKey.service_copy_button]) ++
  (if useScrollGesture = true then [CoordKey.scroll_gesture_position] else [])

/-- Result of `start_translation`'s precondition check: either the first
missing coordinate is reported and the run does not start (the run state
stays idle, no thread is spawned), or the run starts. -/
inductive StartResult
  | refused : CoordKey → StartResult
  | started : StartResult
deriving DecidableEq

def start_translation (c : Coords) (copyMethod : Int) (useScrollGesture : Bool) :
    StartResult :=
  match (requiredKeys copyMethod useScrollGesture).find? (fun k => (getCoord c k).isNone) with
  | some k => StartResult.refused k
  | none => StartResult.started

/-! ### Theorems -/

theorem pyReplaceAux_fuel (pat rep : Str) :
    ∀ (f₁ f₂ : Nat) (s : Str), s.length ≤ f₁ → s.length ≤ f₂ →
      pyReplaceAux pat rep f₁ s = pyReplaceAux pat rep f₂ s := by
  intro f₁
  induction f₁ with
  | zero =>
    intro f₂ s h₁ _
    have hs : s = [] := List.length_eq_zero.mp (Nat.le_zero.mp h₁)
    subst hs
    cases f₂ <;> rfl
  | succ f ih =>
    intro f₂ s h₁ h₂
    cases s with
    | nil => cases f₂ <;> rfl
    | cons c t =>
      cases f₂ with
      | zero => simp at h₂
      | succ f₂' =>
        simp only [pyReplaceAux]
        by_cases h : pat.isPrefixOf (c :: t) ∧ pat ≠ []
        · rw [if_pos h, if_pos h]
          have hd : (t.drop (pat.length - 1)).length ≤ t.length := by
            rw [List.length_drop]; omega
          have ht₁ : t.length ≤ f := by simpa using h₁
          have ht₂ : t.length ≤ f₂' := by simpa using h₂
          rw [ih f₂' (t.drop (pat.length - 1)) (le_trans hd ht₁) (le_trans hd ht₂)]
        · rw [if_neg h, if_neg h]
          have ht₁ : t.length ≤ f := by simpa using h₁
          have ht₂ : t.length ≤ f₂' := by simpa using h₂
          rw [ih f₂' t ht₁ ht₂]

theorem pyReplace_nil (pat rep : Str) : pyReplace pat rep [] = [] := rfl

theorem pyReplace_cons_pos {pat : Str} (rep : Str) {c : Char} {t : Str}
    (h : pat.isPrefixOf (c :: t)) (hne : pat ≠ []) :
    pyReplace pat rep (c :: t) = rep ++ pyReplace pat rep (t.drop (pat.length - 1)) := by
  show pyReplaceAux pat rep (t.length + 1) (c :: t) = _
  simp only [pyReplaceAux, if_pos (And.intro h hne)]
  rw [pyReplaceAux_fuel pat rep t.length (t.drop (pat.length - 1)).length
        (t.drop (pat.length - 1)) (by rw [List.length_drop]; omega) le_rfl]
  rfl

theorem pyReplace_cons_neg {pat : Str} (rep : Str) {c : Char} {t : Str}
    (h : ¬ (pat.isPrefixOf (c :: t) ∧ pat ≠ [])) :
    pyReplace pat rep (c :: t) = c :: pyReplace pat rep t := by
  show pyReplaceAux pat rep (t.length + 1) (c :: t) = _
  simp only [pyReplaceAux, if_neg h]
  rfl

theorem containsL_iff (pat : Str) : ∀ s : Str, containsL pat s = true ↔ pat <:+: s := by
  intro s
  induction s with
  | nil =>
    simp only [containsL, List.isEmpty_iff]
    constructor
    · intro h; subst h; exact List.infix_rfl
    · intro h; exact List.eq_nil_of_infix_nil h
  | cons c t ih =>
    simp only [containsL, Bool.or_eq_true, List.infix_cons_iff, ih,
      List.isPrefixOf_iff_prefix]

/-- If the pattern is non-empty and does not occur in the text, `replace`
is the identity. -/
theorem pyReplace_no_occurrence {pat : Str} (rep : Str) (_hne : pat ≠ []) :
    ∀ s : Str, ¬ pat <:+: s → pyReplace pat rep s = s := by
  intro s
  induction s with
  | nil => intro _; rfl
  | cons c t ih =>
    intro h
    have hpre : ¬ pat.isPrefixOf (c :: t) := by
      intro hp
      exact h ((List.isPrefixOf_iff_prefix.mp hp).isInfix)
    rw [pyReplace_cons_neg rep (fun hc => hpre hc.1)]
    rw [ih (fun hi => h (List.infix_cons_iff.mpr (Or.inr hi)))]

/-- Singleton-pattern replacement is the identity when the character does
not occur. -/
theorem pyReplace_single_no_mem {a : Char} (rep : Str) {s : Str} (h : a ∉ s) :
    pyReplace [a] rep s = s := by
  apply pyReplace_no_occurrence rep (by simp)
  intro hi
  exact h (hi.subset (by simp))

theorem SENTP_prefix_SENT : SENTP <+: SENT :=
  List.isPrefixOf_iff_prefix.mp (by decide)

theorem crlf_no_occurrence {x : Str} (h : '\r' ∉ x) :
    pyReplace ['\r', '\n'] ['\n'] x = x := by
  apply pyReplace_no_occurrence _ (by simp)
  intro hi
  exact h (hi.subset (by simp))

theorem encE_newline (t : Str) :
    pyReplace ['\n'] SENT ('\n' :: t) = SENT ++ pyReplace ['\n'] SENT t := by
  rw [pyReplace_cons_pos SENT (by simp [List.isPrefixOf]) (by simp)]
  simp

theorem encE_cons {c : Char} (h : c ≠ '\n') (t : Str) :
    pyReplace ['\n'] SENT (c :: t) = c :: pyReplace ['\n'] SENT t := by
  rw [pyReplace_cons_neg SENT]
  intro hc
  have := List.isPrefixOf_iff_prefix.mp hc.1
  rw [List.cons_prefix_cons] at this
  exact h this.1.symm

theorem encE_append {u : Str} (h : '\n' ∉ u) (m : Str) :
    pyReplace ['\n'] SENT (u ++ m) = u ++ pyReplace ['\n'] SENT m := by
  induction u with
  | nil => rfl
  | cons c u' ih =>
    have hc : c ≠ '\n' := fun hc => h (by simp [hc])
    have hu' : '\n' ∉ u' := fun hm => h (by simp [hm])
    simp only [List.cons_append]
    rw [encE_cons hc, ih hu']

/-- Overlap analysis for the sentinel: if the sentinel is a prefix of
`w ++ SENT ++ t` for a non-empty `w`, then `w` starts with the
sentinel-like fragment `__NL_114514`. -/
theorem sent_overlap {w t : Str} (hw : w ≠ []) (h : SENT <+: w ++ (SENT ++ t)) :
    SENTP <+: w := by
  have hSL : SENT.length = 13 := by decide
  have hS : SENT = (w ++ (SENT ++ t)).take SENT.length :=
    List.prefix_iff_eq_take.mp h
  by_cases hlen : 13 ≤ w.length
  · have htake : (w ++ (SENT ++ t)).take SENT.length = w.take SENT.length := by
      rw [List.take_append_eq_append_take]
      have h0 : SENT.length - w.length = 0 := by omega
      simp [h0]
    have hSw : SENT = w.take SENT.length := hS.trans htake
    exact SENTP_prefix_SENT.trans (hSw ▸ List.take_prefix SENT.length w)
  · have hpos : 1 ≤ w.length := List.length_pos.mpr hw
    rw [List.take_append_eq_append_take,
      List.take_of_length_le (show w.length ≤ SENT.length by omega),
      List.take_append_eq_append_take,
      show SENT.length - w.length - SENT.length = 0 by omega,
      List.take_zero, List.append_nil] at hS
    have hw_eq : w = SENT.take w.length := by
      have := congrArg (List.take w.length) hS
      rw [List.take_append_eq_append_take, Nat.sub_self, List.take_zero,
        List.append_nil, List.take_length] at this
      exact this.symm
    have hdrop : SENT.drop w.length = SENT.take (SENT.length - w.length) := by
      have := congrArg (List.drop w.length) hS
      rw [List.drop_append_eq_append_drop, Nat.sub_self, List.drop_zero,
        List.drop_length, List.nil_append] at this
      exact this
    have key : ∀ m, m < 13 → 1 ≤ m → SENT.drop m = SENT.take (13 - m) → 11 ≤ m := by
      decide
    have h11 : 11 ≤ w.length := by
      refine key w.length (by omega) hpos ?_
      rw [← hSL]
      exact hdrop
    have hPw : SENTP <+: SENT.take w.length := by
      have h₁ : (SENT.take w.length).take 11 = SENT.take 11 := by
        rw [List.take_take]
        congr 1
        omega
      have h₂ : SENTP = SENT.take 11 := by decide
      rw [h₂, ← h₁]
      exact List.take_prefix 11 (SENT.take w.length)
    rw [hw_eq]
    exact hPw

/-- Decoding scans over a non-sentinel-like segment `u` and consumes the
inserted sentinel exactly. -/
theorem decode_skip : ∀ u : Str, ¬ SENTP <:+: u → ∀ t : Str,
    pyReplace SENT ['\n'] (u ++ SENT ++ t) = u ++ '\n' :: pyReplace SENT ['\n'] t := by
  intro u
  induction u with
  | nil =>
    intro _ t
    show pyReplace SENT ['\n'] (SENT ++ t) = '\n' :: pyReplace SENT ['\n'] t
    have hstep : pyReplace SENT ['\n'] ('_' :: ("_NL_114514__".data ++ t)) =
        ['\n'] ++ pyReplace SENT ['\n'] (("_NL_114514__".data ++ t).drop (SENT.length - 1)) :=
      pyReplace_cons_pos ['\n'] (List.isPrefixOf_iff_prefix.mpr ⟨t, rfl⟩) (by decide)
    have hdrop : (("_NL_114514__".data : Str) ++ t).drop (SENT.length - 1) = t := by
      have h12 : SENT.length - 1 = ("_NL_114514__".data : Str).length := by decide
      rw [h12, List.drop_left]
    rw [hdrop] at hstep
    exact hstep
  | cons c u' ih =>
    intro hP t
    have hnp : ¬ SENT.isPrefixOf (c :: (u' ++ (SENT ++ t))) := by
      intro hp
      have h2 : SENT <+: (c :: u') ++ (SENT ++ t) := by
        simpa using List.isPrefixOf_iff_prefix.mp hp
      exact hP ((sent_overlap (by simp) h2).isInfix)
    have hP' : ¬ SENTP <:+: u' := fun hi => hP (List.infix_cons_iff.mpr (Or.inr hi))
    simp only [List.cons_append, List.append_assoc]
    rw [pyReplace_cons_neg ['\n'] (fun hc => hnp (by simpa [List.append_assoc] using hc.1))]
    have := ih hP' t
    simp only [List.append_assoc] at this
    rw [this]

theorem exists_first_newline {x : Str} (h : '\n' ∈ x) :
    ∃ u r, x = u ++ '\n' :: r ∧ '\n' ∉ u := by
  induction x with
  | nil => simp at h
  | cons c t ih =>
    by_cases hc : c = '\n'
    · exact ⟨[], t, by simp [hc], by simp⟩
    · have ht : '\n' ∈ t := by
        rcases List.mem_cons.mp h with h1 | h1
        · exact absurd h1.symm hc
        · exact h1
      obtain ⟨u, r, hx, hu⟩ := ih ht
      refine ⟨c :: u, r, by simp [hx], ?_⟩
      intro hm
      rcases List.mem_cons.mp hm with h1 | h1
      · exact hc h1.symm
      · exact hu h1

/-- Core round trip: on carriage-return-free text without sentinel-like
fragments, replacing LF by the sentinel and then the sentinel by LF is the
identity. -/
theorem decode_encode_core (N : Nat) : ∀ x : Str, x.length ≤ N → ¬ SENTP <:+: x →
    pyReplace SENT ['\n'] (pyReplace ['\n'] SENT x) = x := by
  induction N with
  | zero =>
    intro x hlen _
    have hx : x = [] := List.length_eq_zero.mp (Nat.le_zero.mp hlen)
    subst hx
    rfl
  | succ N ih =>
    intro x hlen hP
    by_cases hnl : '\n' ∈ x
    · obtain ⟨u, r, rfl, hu⟩ := exists_first_newline hnl
      have hPu : ¬ SENTP <:+: u := by
        intro hi
        exact hP (hi.trans ⟨[], '\n' :: r, by simp⟩)
      have hPr : ¬ SENTP <:+: r := by
        intro hi
        exact hP (hi.trans ⟨u ++ ['\n'], [], by simp⟩)
      have hrlen : r.length ≤ N := by
        have := hlen
        simp only [List.length_append, List.length_cons] at this
        omega
      rw [encE_append hu, encE_newline, ← List.append_assoc, decode_skip u hPu,
        ih r hrlen hPr]
    · rw [pyReplace_single_no_mem SENT hnl]
      apply pyReplace_no_occurrence _ (by decide)
      intro hi
      exact hP (SENTP_prefix_SENT.isInfix.trans hi)

/-- Full round trip through the program's encode and decode paths, for
text whose line breaks are all LF and which contains no sentinel-like
fragment. -/
theorem roundtrip_encode_decode {x : Str} (hcr : '\r' ∉ x) (hP : ¬ SENTP <:+: x) :
    decodeNewlines (encodeNewlines x) = x := by
  have hcrlf : pyReplace ['\r', '\n'] ['\n'] x = x := crlf_no_occurrence hcr
  have hcr2 : pyReplace ['\r'] ['\n'] x = x := pyReplace_single_no_mem ['\n'] hcr
  unfold encodeNewlines
  rw [hcrlf, hcr2]
  by_cases hnl : '\n' ∈ x
  · unfold decodeNewlines
    have hcont : containsL SENT (pyReplace ['\n'] SENT x) = true := by
      rw [containsL_iff]
      obtain ⟨u, r, rfl, hu⟩ := exists_first_newline hnl
      rw [encE_append hu, encE_newline]
      exact ⟨u, pyReplace ['\n'] SENT r, by simp⟩
    rw [if_pos hcont, decode_encode_core x.length x le_rfl hP, hcrlf, hcr2]
  · rw [pyReplace_single_no_mem SENT hnl]
    unfold decodeNewlines
    have hcont : ¬ containsL SENT x = true := by
      rw [containsL_iff]
      intro hi
      exact hP (SENTP_prefix_SENT.isInfix.trans hi)
    rw [if_neg hcont]

/-- C3, counterexample to the claim as stated: `"a\rb"` contains a line
break (CR), no occurrence of the sentinel token, yet does not pass through
encode followed by decode unchanged (the CR is normalised to LF); and
`"__NL_114514_\n"` contains a line break (LF) and no occurrence of the
sentinel token, yet decoding misparses the overlap of its trailing
underscore with the inserted sentinel. -/
theorem claim_C3_counterexample :
    ('\r' ∈ "a\rb".data ∧ ¬ SENT <:+: "a\rb".data ∧
      decodeNewlines (encodeNewlines "a\rb".data) ≠ "a\rb".data) ∧
    ('\n' ∈ "__NL_114514_\n".data ∧ ¬ SENT <:+: "__NL_114514_\n".data ∧
      decodeNewlines (encodeNewlines "__NL_114514_\n".data) ≠ "__NL_114514_\n".data) := by
  decide

/-- C3 (amended): for every text with no line break characters and no
occurrence of the sentinel token, decode∘encode and encode∘decode are the
identity; and every text whose line breaks are all LF (no carriage
returns) and which contains no occurrence of the sentinel-like fragment
`__NL_114514` passes through encode followed by decode unchanged. -/
theorem claim_C3 :
    (∀ x : Str, '\n' ∉ x → '\r' ∉ x → ¬ SENT <:+: x →
      decodeNewlines (encodeNewlines x) = x ∧ encodeNewlines (decodeNewlines x) = x) ∧
    (∀ x : Str, '\r' ∉ x → ¬ SENTP <:+: x →
      decodeNewlines (encodeNewlines x) = x) := by
  constructor
  · intro x hnl hcr hs
    have henc : encodeNewlines x = x := by
      unfold encodeNewlines
      rw [crlf_no_occurrence hcr, pyReplace_single_no_mem ['\n'] hcr,
        pyReplace_single_no_mem SENT hnl]
    have hdec : decodeNewlines x = x := by
      unfold decodeNewlines
      rw [if_neg (fun hc => hs ((containsL_iff SENT x).mp hc))]
    exact ⟨by rw [henc, hdec], by rw [hdec, henc]⟩
  · intro x hcr hP
    exact roundtrip_encode_decode hcr hP

/-- C3, witness: the amended theorem evaluated at `"Hello world"` (no line
breaks) and at `"a\nb"` (one LF line break). -/
theorem claim_C3_witness :
    decodeNewlines (encodeNewlines "Hello world".data) = "Hello world".data ∧
    decodeNewlines (encodeNewlines "a\nb".data) = "a\nb".data :=
  ⟨(claim_C3.1 "Hello world".data (by decide) (by decide) (by decide)).1,
   claim_C3.2 "a\nb".data (by decide) (by decide)⟩

theorem comparisonOf_false (t : Str) : comparisonOf false t = t := rfl

/-- If the first fresh sample appears at index `j` within the budget, the
polling loop stops there and returns it. -/
theorem consistencyLoop_reaches_fresh {conv : Bool} {original last : Str}
    {samples : Nat → CopySample} {running : Nat → Bool}
    (hrun : ∀ i, running i = true) (hraise : ∀ i, samples i ≠ CopySample.actionRaise)
    (v : Nat → Str) (hv : ∀ i, v (i + 1) = (samples i).val)
    (j : Nat) (hfresh : isFresh conv original last (v j))
    (hbefore : ∀ i, i < j → ¬ isFresh conv original last (v i)) :
    ∀ remaining k, k ≤ j → j < k + remaining →
      consistencyLoop conv original last samples running remaining k (v k) = some (v j) := by
  intro remaining
  induction remaining with
  | zero => intro k h1 h2; omega
  | succ r ih =>
    intro k hkj hlt
    simp only [consistencyLoop]
    rw [if_pos (hrun k)]
    cases hs : samples k with
    | actionRaise => exact absurd hs (hraise k)
    | clip raw =>
      simp only [hs]
      rcases Nat.lt_or_ge k j with hkj' | hkj'
      · have hnf := hbefore k hkj'
        have hvk1 : (CopySample.clip raw).val = v (k + 1) := by
          rw [hv k, hs]
        have hrec : consistencyLoop conv original last samples running r (k + 1)
            ((CopySample.clip raw).val) = some (v j) := by
          rw [hvk1]
          exact ih (k + 1) (by omega) (by omega)
        by_cases h1 : comparisonOf conv (v k) = pyStrip original
        · rw [if_pos h1]; exact hrec
        · rw [if_neg h1]
          by_cases h2 : comparisonOf conv (v k) ≠ [] ∧
              pyIsSpace (comparisonOf conv (v k)) = false ∧
              pyStrip (comparisonOf conv (v k)) ≠ pyStrip original
          · rw [if_pos h2]
            by_cases h3 : last ≠ [] ∧ pyStrip (comparisonOf conv (v k)) = pyStrip last
            · rw [if_pos h3]; exact hrec
            · exact absurd ⟨h1, h2, h3⟩ hnf
          · rw [if_neg h2]; exact hrec
      · have hk : k = j := by omega
        subst hk
        obtain ⟨h1, h2, h3⟩ := hfresh
        rw [if_neg h1, if_pos h2, if_neg h3]

/-- Any value the polling loop produces is either fresh (it broke early)
or the sample obtained on budget exhaustion. -/
theorem consistencyLoop_result {conv : Bool} {original last : Str}
    {samples : Nat → CopySample} {running : Nat → Bool}
    (hrun : ∀ i, running i = true) (hraise : ∀ i, samples i ≠ CopySample.actionRaise)
    (v : Nat → Str) (hv : ∀ i, v (i + 1) = (samples i).val) :
    ∀ remaining k tf,
      consistencyLoop conv original last samples running remaining k (v k) = some tf →
      isFresh conv original last tf ∨ tf = v (k + remaining) := by
  intro remaining
  induction remaining with
  | zero =>
    intro k tf h
    right
    simpa using (Option.some_injective _ h).symm
  | succ r ih =>
    intro k tf h
    simp only [consistencyLoop] at h
    rw [if_pos (hrun k)] at h
    cases hs : samples k with
    | actionRaise => exact absurd hs (hraise k)
    | clip raw =>
      simp only [hs] at h
      have hvk1 : (CopySample.clip raw).val = v (k + 1) := by
        rw [hv k, hs]
      rw [hvk1] at h
      have hidx : k + 1 + r = k + (r + 1) := by omega
      by_cases h1 : comparisonOf conv (v k) = pyStrip original
      · rw [if_pos h1] at h
        rcases ih (k + 1) tf h with hf | he
        · exact Or.inl hf
        · exact Or.inr (by rw [he, hidx])
      · rw [if_neg h1] at h
        by_cases h2 : comparisonOf conv (v k) ≠ [] ∧
            pyIsSpace (comparisonOf conv (v k)) = false ∧
            pyStrip (comparisonOf conv (v k)) ≠ pyStrip original
        · rw [if_pos h2] at h
          by_cases h3 : last ≠ [] ∧ pyStrip (comparisonOf conv (v k)) = pyStrip last
          · rw [if_pos h3] at h
            rcases ih (k + 1) tf h with hf | he
            · exact Or.inl hf
            · exact Or.inr (by rw [he, hidx])
          · rw [if_neg h3] at h
            have htf : tf = v k := (Option.some_injective _ h).symm
            exact Or.inl (htf ▸ ⟨h1, h2, h3⟩)
        · rw [if_neg h2] at h
          rcases ih (k + 1) tf h with hf | he
          · exact Or.inl hf
          · exact Or.inr (by rw [he, hidx])

/-- If no sample within the budget is fresh, the polling loop exhausts and
returns the sample of the final retry. -/
theorem consistencyLoop_exhaust {conv : Bool} {original last : Str}
    {samples : Nat → CopySample} {running : Nat → Bool}
    (hrun : ∀ i, running i = true) (hraise : ∀ i, samples i ≠ CopySample.actionRaise)
    (v : Nat → Str) (hv : ∀ i, v (i + 1) = (samples i).val) :
    ∀ remaining k, (∀ i, k ≤ i → i < k + remaining → ¬ isFresh conv original last (v i)) →
      consistencyLoop conv original last samples running remaining k (v k) =
        some (v (k + remaining)) := by
  intro remaining
  induction remaining with
  | zero => intro k _; rfl
  | succ r ih =>
    intro k hnf
    simp only [consistencyLoop]
    rw [if_pos (hrun k)]
    cases hs : samples k with
    | actionRaise => exact absurd hs (hraise k)
    | clip raw =>
      simp only [hs]
      have hvk1 : (CopySample.clip raw).val = v (k + 1) := by
        rw [hv k, hs]
      have hrec : consistencyLoop conv original last samples running r (k + 1)
          ((CopySample.clip raw).val) = some (v (k + (r + 1))) := by
        rw [hvk1]
        have := ih (k + 1) (fun i hi1 hi2 => hnf i (by omega) (by omega))
        rw [this]
        have harith : k + 1 + r = k + (r + 1) := by omega
        rw [harith]
      have hnfk := hnf k (le_refl k) (by omega)
      by_cases h1 : comparisonOf conv (v k) = pyStrip original
      · rw [if_pos h1]; exact hrec
      · rw [if_neg h1]
        by_cases h2 : comparisonOf conv (v k) ≠ [] ∧
            pyIsSpace (comparisonOf conv (v k)) = false ∧
            pyStrip (comparisonOf conv (v k)) ≠ pyStrip original
        · rw [if_pos h2]
          by_cases h3 : last ≠ [] ∧ pyStrip (comparisonOf conv (v k)) = pyStrip last
          · rw [if_pos h3]; exact hrec
          · exact absurd ⟨h1, h2, h3⟩ hnfk
        · rw [if_neg h2]; exact hrec

theorem wait_shape (cfg : WaitCfg) (original last : Str) (env : WaitEnv)
    (hbase : env.baselineRaise = false) (raw : Option Str)
    (hf : env.first = CopySample.clip raw) (hcc : cfg.checkConsistency = true) :
    wait_for_translation_result cfg original last env =
      match consistencyLoop cfg.convertNewlines original last env.samples env.running
          cfg.maxChecks 0 (sampleSeq env 0) with
      | none => []
      | some t => finishWait cfg.convertNewlines t := by
  unfold wait_for_translation_result
  rw [if_neg (by rw [hbase]; exact Bool.false_ne_true)]
  simp only [hf, if_pos hcc, sampleSeq]

/-- C2: with consistency checking enabled (newline conversion off, the run
flag held, no raising attempts), while the attempt budget is not exhausted
the result-wait routine never returns an Echo or Stale sample — any
non-empty return is either fresh or the sample obtained on budget
exhaustion — and the first fresh sample observed within the budget is
returned as soon as it is observed. -/
theorem claim_C2 (cfg : WaitCfg) (original last : Str) (env : WaitEnv)
    (hcc : cfg.checkConsistency = true) (hconv : cfg.convertNewlines = false)
    (hbase : env.baselineRaise = false) (hfirst : env.first ≠ CopySample.actionRaise)
    (hraise : ∀ i, env.samples i ≠ CopySample.actionRaise)
    (hrun : ∀ i, env.running i = true) :
    (wait_for_translation_result cfg original last env ≠ [] →
      isFresh false original last (wait_for_translation_result cfg original last env) ∨
      wait_for_translation_result cfg original last env = sampleSeq env cfg.maxChecks) ∧
    (∀ j, j < cfg.maxChecks → isFresh false original last (sampleSeq env j) →
      (∀ i, i < j → ¬ isFresh false original last (sampleSeq env i)) →
      wait_for_translation_result cfg original last env = sampleSeq env j) := by
  obtain ⟨raw, hf⟩ : ∃ raw, env.first = CopySample.clip raw := by
    cases henv : env.first with
    | actionRaise => exact absurd henv hfirst
    | clip raw => exact ⟨raw, rfl⟩
  have hshape := wait_shape cfg original last env hbase raw hf hcc
  rw [hconv] at hshape
  have hv : ∀ i, sampleSeq env (i + 1) = (env.samples i).val := fun i => rfl
  constructor
  · intro hne
    rw [hshape] at hne ⊢
    cases hres : consistencyLoop false original last env.samples env.running
        cfg.maxChecks 0 (sampleSeq env 0) with
    | none => rw [hres] at hne; exact absurd rfl hne
    | some tf =>
      simp only [hres] at hne ⊢
      by_cases hb : tf ≠ [] ∧ pyIsSpace tf = false
      · have hfw : finishWait false tf = tf := by
          simp [finishWait, hb.1, hb.2]
        rw [hfw]
        rcases consistencyLoop_result hrun hraise (sampleSeq env) hv
            cfg.maxChecks 0 tf hres with h | h
        · exact Or.inl h
        · exact Or.inr (by rw [h, Nat.zero_add])
      · have hfw : finishWait false tf = [] := by
          simp only [finishWait, Bool.false_eq_true, if_false]
          exact if_neg hb
        rw [hfw] at hne
        exact absurd rfl hne
  · intro j hj hfr hbef
    rw [hshape]
    have hl := consistencyLoop_reaches_fresh hrun hraise (sampleSeq env) hv j hfr hbef
      cfg.maxChecks 0 (Nat.zero_le j) (by omega)
    simp only [hl]
    obtain ⟨h1, h2, h3⟩ := hfr
    rw [comparisonOf_false] at h2
    simp [finishWait, h2.1, h2.2.1]

/-- C2, witness: the routine polls past an initial Echo sample and returns
the fresh sample `"bonjour"` observed at check index 1 of a budget of 3. -/
theorem claim_C2_witness :
    wait_for_translation_result ⟨true, false, 3⟩ "hello".data "prev".data
      ⟨false, CopySample.clip (some "hello".data),
        fun _ => CopySample.clip (some "bonjour".data), fun _ => true⟩ =
      "bonjour".data := by
  have h := claim_C2 ⟨true, false, 3⟩ "hello".data "prev".data
    ⟨false, CopySample.clip (some "hello".data),
      fun _ => CopySample.clip (some "bonjour".data), fun _ => true⟩
    rfl rfl rfl (by decide) (fun i h => CopySample.noConfusion h) (fun i => rfl)
  exact h.2 1 (by decide) (by decide) (by decide)

theorem loopSteps_eq (cfg : LoopCfg) (env : Nat → IterIn) (s0 : LoopState) (n : Nat) :
    loopSteps cfg env s0 n = stepIter cfg (prevState cfg env s0 n) (env n) := by
  cases n <;> rfl

theorem stepTranslate_state (cfg : LoopCfg) (s1 : LoopState) (src : Str) (e : IterIn) :
    (stepTranslate cfg s1 src e).state.sameSourceCount = s1.sameSourceCount ∧
    (stepTranslate cfg s1 src e).state.lastSourceText = s1.lastSourceText := by
  simp only [stepTranslate]
  split_ifs <;> exact ⟨rfl, rfl⟩

/-- On a `next` iteration the new state records the observed source text
and the updated repeat counter. -/
theorem stepIter_next_state (cfg : LoopCfg) (s : LoopState) (e : IterIn)
    (h : (stepIter cfg s e).outcome = Outcome.next) :
    (stepIter cfg s e).state.lastSourceText = readText e.sourceRead ∧
    (stepIter cfg s e).state.sameSourceCount =
      (if readText e.sourceRead = s.lastSourceText then s.sameSourceCount + 1 else 0) := by
  simp only [stepIter] at h ⊢
  split_ifs at h ⊢ <;>
    first
      | exact ⟨rfl, rfl⟩
      | exact ⟨(stepTranslate_state ..).2, (stepTranslate_state ..).1⟩
      | simp at h

/-- When the run flag holds, the source repeats the previous iteration's
non-empty value and the repeat counter is already at `2`, the iteration
terminates as natural completion, before any dispatch. -/
theorem stepIter_natural (cfg : LoopCfg) (s : LoopState) (e : IterIn)
    (hr0 : e.r0 = true) (hr1 : e.r1a = true)
    (hsrc : readText e.sourceRead = s.lastSourceText)
    (hne : readText e.sourceRead ≠ []) (hcnt : 2 ≤ s.sameSourceCount) :
    stepIter cfg s e =
      ⟨Outcome.naturalCompletion,
        ⟨s.sameSourceCount + 1, s.lastSourceText, s.lastTranslatedText⟩,
        false, none, false⟩ := by
  simp only [stepIter]
  rw [if_neg (by simp [hr0] : ¬ e.r0 = false)]
  rw [if_neg (by simp [hne, hr1] : ¬ (readText e.sourceRead = [] ∨ e.r1a = false))]
  rw [if_pos hsrc, if_pos (And.intro hsrc (by omega))]

/-- C1, counterexample to the claim as stated: the extracted source text
equals the fixed non-empty value `"hello"` on iterations 0, 1 and 2 (three
consecutive iterations), yet none of these iterations terminates the loop
— each ends with `next` — and a translation dispatch is performed on the
2nd and 3rd of those observations. -/
theorem claim_C1_counterexample :
    (∀ k, k < 3 → readText ((envC1 k).sourceRead) = "hello".data ∧
      readText ((envC1 k).sourceRead) ≠ []) ∧
    (loopSteps cfgC1 envC1 initState 0).outcome = Outcome.next ∧
    (loopSteps cfgC1 envC1 initState 1).outcome = Outcome.next ∧
    (loopSteps cfgC1 envC1 initState 2).outcome = Outcome.next ∧
    (loopSteps cfgC1 envC1 initState 1).dispatched = true ∧
    (loopSteps cfgC1 envC1 initState 2).dispatched = true := by
  decide

/-- C1 (amended): termination requires three consecutive repeats, i.e. the
same non-empty source observed on four consecutive iterations.  If
iterations `i` to `i + 3` all observe the same non-empty source text and
iterations `i` to `i + 2` did not already end the run, then iteration
`i + 3` terminates the loop with reason NaturalCompletion and performs no
dispatch, no write-back and no navigation; dispatch may still occur on the
1st and 2nd repeats. -/
theorem claim_C1 (cfg : LoopCfg) (env : Nat → IterIn) (s0 : LoopState) (i : Nat) (v : Str)
    (hv : v ≠ [])
    (hsrc : ∀ k, i ≤ k → k ≤ i + 3 → readText ((env k).sourceRead) = v)
    (hr0 : (env (i + 3)).r0 = true) (hr1 : (env (i + 3)).r1a = true)
    (h0 : (loopSteps cfg env s0 i).outcome = Outcome.next)
    (h1 : (loopSteps cfg env s0 (i + 1)).outcome = Outcome.next)
    (h2 : (loopSteps cfg env s0 (i + 2)).outcome = Outcome.next) :
    (loopSteps cfg env s0 (i + 3)).outcome = Outcome.naturalCompletion ∧
    (loopSteps cfg env s0 (i + 3)).dispatched = false ∧
    (loopSteps cfg env s0 (i + 3)).pastedTarget = none ∧
    (loopSteps cfg env s0 (i + 3)).navigated = false := by
  rw [loopSteps_eq] at h0 h1 h2
  have hA := stepIter_next_state cfg (prevState cfg env s0 i) (env i) h0
  have hPA : prevState cfg env s0 (i + 1) = (stepIter cfg (prevState cfg env s0 i) (env i)).state := by
    show (loopSteps cfg env s0 i).state = _
    rw [loopSteps_eq]
  have hS1 : (prevState cfg env s0 (i + 1)).lastSourceText = v := by
    rw [hPA, hA.1, hsrc i (le_refl i) (by omega)]
  have hB := stepIter_next_state cfg (prevState cfg env s0 (i + 1)) (env (i + 1)) h1
  have hPB : prevState cfg env s0 (i + 2) =
      (stepIter cfg (prevState cfg env s0 (i + 1)) (env (i + 1))).state := by
    show (loopSteps cfg env s0 (i + 1)).state = _
    rw [loopSteps_eq]
  have hS2 : (prevState cfg env s0 (i + 2)).lastSourceText = v ∧
      1 ≤ (prevState cfg env s0 (i + 2)).sameSourceCount := by
    constructor
    · rw [hPB, hB.1, hsrc (i + 1) (by omega) (by omega)]
    · rw [hPB, hB.2, hsrc (i + 1) (by omega) (by omega), hS1, if_pos rfl]
      omega
  have hC := stepIter_next_state cfg (prevState cfg env s0 (i + 2)) (env (i + 2)) h2
  have hPC : prevState cfg env s0 (i + 3) =
      (stepIter cfg (prevState cfg env s0 (i + 2)) (env (i + 2))).state := by
    show (loopSteps cfg env s0 (i + 2)).state = _
    rw [loopSteps_eq]
  have hS3 : (prevState cfg env s0 (i + 3)).lastSourceText = v ∧
      2 ≤ (prevState cfg env s0 (i + 3)).sameSourceCount := by
    constructor
    · rw [hPC, hC.1, hsrc (i + 2) (by omega) (by omega)]
    · rw [hPC, hC.2, hsrc (i + 2) (by omega) (by omega), hS2.1, if_pos rfl]
      omega
  have hfinal := stepIter_natural cfg (prevState cfg env s0 (i + 3)) (env (i + 3))
    hr0 hr1
    (by rw [hsrc (i + 3) (by omega) (le_refl _), hS3.1])
    (by rw [hsrc (i + 3) (by omega) (le_refl _)]; exact hv)
    hS3.2
  rw [loopSteps_eq, hfinal]
  exact ⟨rfl, rfl, rfl, rfl⟩

/-- C1, witness: the amended theorem instantiated on the concrete
counterexample run, whose iteration 3 (the third repeat of `"hello"`)
terminates with NaturalCompletion and no dispatch. -/
theorem claim_C1_witness :
    (loopSteps cfgC1 envC1 initState 3).outcome = Outcome.naturalCompletion ∧
    (loopSteps cfgC1 envC1 initState 3).dispatched = false ∧
    (loopSteps cfgC1 envC1 initState 3).pastedTarget = none ∧
    (loopSteps cfgC1 envC1 initState 3).navigated = false := by
  have h := claim_C1 cfgC1 envC1 initState 0 "hello".data (by decide)
    (fun k _ _ => rfl) rfl rfl (by decide) (by decide) (by decide)
  simpa using h

/-! ### Trimming lemmas -/

theorem dropWhile_idem (p : Char → Bool) : ∀ l : Str, (l.dropWhile p).dropWhile p = l.dropWhile p := by
  intro l
  induction l with
  | nil => rfl
  | cons c t ih =>
    rw [List.dropWhile_cons]
    by_cases h : p c = true
    · rw [if_pos h]; exact ih
    · rw [if_neg h, List.dropWhile_cons, if_neg h]

theorem dropWhile_prefix_self {p : Char → Bool} {l l' : Str}
    (hl : l.dropWhile p = l) (hpre : l' <+: l) : l'.dropWhile p = l' := by
  cases l' with
  | nil => rfl
  | cons c t' =>
    obtain ⟨r, hr⟩ := hpre
    have hc : ¬ p c = true := by
      intro hpc
      rw [← hr, List.cons_append, List.dropWhile_cons, if_pos hpc] at hl
      have h1 := congrArg List.length hl
      simp only [List.length_cons] at h1
      have h2 := (List.dropWhile_suffix p (l := t' ++ r)).length_le
      omega
    rw [List.dropWhile_cons, if_neg hc]

theorem pyStrip_prefix_dropWhile (s : Str) : pyStrip s <+: s.dropWhile pyWS := by
  have h : ((s.dropWhile pyWS).reverse.dropWhile pyWS).reverse <+:
      (s.dropWhile pyWS).reverse.reverse :=
    List.reverse_prefix.mpr (List.dropWhile_suffix pyWS)
  rw [List.reverse_reverse] at h
  exact h

/-- Python's `strip` is idempotent: a stripped text strips to itself. -/
theorem pyStrip_idem (s : Str) : pyStrip (pyStrip s) = pyStrip s := by
  have hB : (pyStrip s).dropWhile pyWS = pyStrip s :=
    dropWhile_prefix_self (dropWhile_idem pyWS s) (pyStrip_prefix_dropWhile s)
  show (((pyStrip s).dropWhile pyWS).reverse.dropWhile pyWS).reverse = pyStrip s
  rw [hB]
  show ((((s.dropWhile pyWS).reverse.dropWhile pyWS).reverse).reverse.dropWhile pyWS).reverse
    = pyStrip s
  rw [List.reverse_reverse, dropWhile_idem]
  rfl

theorem pyStrip_all_ws {s : Str} (h : ∀ c ∈ s, pyWS c = true) : pyStrip s = [] := by
  unfold pyStrip
  rw [List.dropWhile_eq_nil_iff.mpr h]
  rfl

/-! ### Claims C5, C7, C8, C9, C10 -/

/-- C5: with skip-already-translated enabled, an iteration that reaches
the target check with a target text that is non-empty after trimming
performs no dispatch, issues the next-field navigation, writes nothing
back, and continues. -/
theorem claim_C5 (cfg : LoopCfg) (s : LoopState) (e : IterIn)
    (hskip : cfg.skipTranslated = true)
    (hr0 : e.r0 = true) (hr1 : e.r1a = true) (hr2 : e.r2 = true)
    (hsrc : readText e.sourceRead ≠ [])
    (hnat : ¬ (readText e.sourceRead = s.lastSourceText ∧ 3 ≤ s.sameSourceCount + 1))
    (htgt : pyStrip (readText e.targetRead) ≠ []) :
    (stepIter cfg s e).outcome = Outcome.next ∧
    (stepIter cfg s e).dispatched = false ∧
    (stepIter cfg s e).navigated = true ∧
    (stepIter cfg s e).pastedTarget = none ∧
    (stepIter cfg s e).state.lastTranslatedText = s.lastTranslatedText := by
  have htne : readText e.targetRead ≠ [] := fun h => htgt (by rw [h]; rfl)
  simp only [stepIter]
  rw [if_neg (by simp [hr0] : ¬ e.r0 = false)]
  rw [if_neg (by simp [hsrc, hr1] : ¬ (readText e.sourceRead = [] ∨ e.r1a = false))]
  rw [if_neg (show ¬ (readText e.sourceRead = s.lastSourceText ∧
      3 ≤ if readText e.sourceRead = s.lastSourceText then s.sameSourceCount + 1 else 0) by
    intro hcond
    rw [if_pos hcond.1] at hcond
    exact hnat hcond)]
  rw [if_neg (by simp [hr2] : ¬ e.r2 = false)]
  rw [if_pos (And.intro hskip (And.intro htne htgt))]
  exact ⟨rfl, rfl, rfl, rfl, rfl⟩

/-- C5, witness: a concrete skipped iteration. -/
theorem claim_C5_witness :
    (stepIter ⟨true, false, false, 3⟩ initState
      { envC1 0 with targetRead := ReadOutcome.clip (some "done".data) }).outcome =
      Outcome.next ∧
    (stepIter ⟨true, false, false, 3⟩ initState
      { envC1 0 with targetRead := ReadOutcome.clip (some "done".data) }).dispatched =
      false := by
  have h := claim_C5 ⟨true, false, false, 3⟩ initState
    { envC1 0 with targetRead := ReadOutcome.clip (some "done".data) }
    rfl rfl rfl rfl (by decide) (by decide) (by decide)
  exact ⟨h.1, h.2.1⟩

/-- C7, counterexample to the claim as stated: when an input action raises
during source extraction, the helper returns the empty string and the loop
terminates the whole run as no-more-content — the field is not skipped and
the loop does not continue to the next field. -/
theorem claim_C7_counterexample :
    envC7.sourceRead = ReadOutcome.actionExc ∧
    (stepIter cfgC1 initState envC7).outcome = Outcome.noMoreContent ∧
    (stepIter cfgC1 initState envC7).outcome ≠ Outcome.next ∧
    (stepIter cfgC1 initState envC7).navigated = false := by
  decide

/-- C7 (amended): no exception raised by an input or clipboard action ever
propagates out of a loop step — each helper catches and logs its own
faults.  A fault in the result-wait path is a field-level failure: the
field is skipped and the loop continues.  Faults in the dispatch paste,
the write-back paste or the navigation command leave the iteration's
observable behaviour unchanged.  However a fault during source extraction
yields an empty source text and terminates the run as no-more-content
rather than skipping the field. -/
theorem claim_C7 :
    (∀ (cfg : LoopCfg) (s : LoopState) (e : IterIn),
      e.r0 = true → e.r1b = true → e.sourceRead = ReadOutcome.actionExc →
      (stepIter cfg s e).outcome = Outcome.noMoreContent) ∧
    (∀ (cfg : LoopCfg) (s : LoopState) (e : IterIn),
      e.r0 = true → e.r1a = true → e.r2 = true → e.r3 = true → e.r4 = true →
      e.r5b = true →
      readText e.sourceRead ≠ [] →
      ¬ (readText e.sourceRead = s.lastSourceText ∧ 3 ≤ s.sameSourceCount + 1) →
      ¬ (cfg.skipTranslated = true ∧ readText e.targetRead ≠ [] ∧
          pyStrip (readText e.targetRead) ≠ []) →
      wait_for_translation_result ⟨cfg.checkConsistency, cfg.convertNewlines, cfg.maxChecks⟩
        (readText e.sourceRead) s.lastTranslatedText e.wait = [] →
      (stepIter cfg s e).outcome = Outcome.next ∧
      (stepIter cfg s e).navigated = true ∧
      (stepIter cfg s e).pastedTarget = none) ∧
    (∀ (cfg : LoopCfg) (s : LoopState) (e : IterIn) (b₁ b₂ b₃ b₄ : Bool),
      stepIter cfg s e = stepIter cfg s
        { e with pasteServiceRaise := b₁, failClickRaise := b₂,
                 pasteTargetRaise := b₃, nextItemRaise := b₄ }) := by
  refine ⟨?_, ?_, ?_⟩
  · intro cfg s e hr0 hr1b hsrc
    simp only [stepIter]
    rw [if_neg (by simp [hr0] : ¬ e.r0 = false)]
    rw [if_pos (Or.inl (by rw [hsrc]; rfl))]
    rw [if_neg (by simp [hr1b] : ¬ e.r1b = false)]
  · intro cfg s e hr0 hr1 hr2 hr3 hr4 hr5b hsrc hnat hskip hw
    simp only [stepIter]
    rw [if_neg (by simp [hr0] : ¬ e.r0 = false)]
    rw [if_neg (by simp [hsrc, hr1] : ¬ (readText e.sourceRead = [] ∨ e.r1a = false))]
    rw [if_neg (show ¬ (readText e.sourceRead = s.lastSourceText ∧
        3 ≤ if readText e.sourceRead = s.lastSourceText then s.sameSourceCount + 1 else 0) by
      intro hcond
      rw [if_pos hcond.1] at hcond
      exact hnat hcond)]
    rw [if_neg (by simp [hr2] : ¬ e.r2 = false)]
    rw [if_neg hskip]
    simp only [stepTranslate]
    rw [if_neg (by simp [hr3] : ¬ e.r3 = false)]
    rw [if_neg (by simp [hr4] : ¬ e.r4 = false)]
    rw [if_pos (Or.inl hw)]
    rw [if_neg (by simp [hr5b] : ¬ e.r5b = false)]
    exact ⟨rfl, rfl, rfl⟩
  · intro cfg s e b₁ b₂ b₃ b₄
    obtain ⟨x0, x1, x2, x3, x4, x5, x6, x7, x8, x9, x10, x11, x12, x13, x14, x15⟩ := e
    rfl

/-- C7, witness: the amended theorem evaluated on concrete runs — a
raising source extraction ends the run as no-more-content, and a failed
result wait (its baseline clipboard write raised) skips the field. -/
theorem claim_C7_witness :
    (stepIter cfgC1 initState envC7).outcome = Outcome.noMoreContent ∧
    (stepIter cfgC1 initState
        { envC1 0 with wait := ⟨true, CopySample.clip (some "x".data),
          fun _ => CopySample.clip (some "x".data), fun _ => true⟩ }).outcome =
      Outcome.next := by
  constructor
  · exact claim_C7.1 cfgC1 initState envC7 rfl rfl rfl
  · exact (claim_C7.2.1 cfgC1 initState
      { envC1 0 with wait := ⟨true, CopySample.clip (some "x".data),
        fun _ => CopySample.clip (some "x".data), fun _ => true⟩ }
      rfl rfl rfl rfl rfl rfl (by decide) (by decide) (by decide) rfl).1

theorem finishWait_false (t : Str) :
    finishWait false t = if t ≠ [] ∧ pyIsSpace t = false then t else [] := rfl

/-- C8: an iteration whose result wait yields the empty string pastes
nothing into the Poedit target field, logs the failure, still navigates to
the next field and continues, leaving the previous-translation record
untouched; a non-empty result is pasted into the target field; and at the
wait level, when consistency polling exhausts its budget without a fresh
sample, the final sample is returned when non-blank and the empty string
otherwise. -/
theorem claim_C8 :
    (∀ (cfg : LoopCfg) (s : LoopState) (e : IterIn),
      e.r0 = true → e.r1a = true → e.r2 = true → e.r3 = true → e.r4 = true →
      e.r5b = true →
      readText e.sourceRead ≠ [] →
      ¬ (readText e.sourceRead = s.lastSourceText ∧ 3 ≤ s.sameSourceCount + 1) →
      ¬ (cfg.skipTranslated = true ∧ readText e.targetRead ≠ [] ∧
          pyStrip (readText e.targetRead) ≠ []) →
      wait_for_translation_result ⟨cfg.checkConsistency, cfg.convertNewlines, cfg.maxChecks⟩
        (readText e.sourceRead) s.lastTranslatedText e.wait = [] →
      (stepIter cfg s e).pastedTarget = none ∧
      (stepIter cfg s e).outcome = Outcome.next ∧
      (stepIter cfg s e).navigated = true ∧
      (stepIter cfg s e).state.lastTranslatedText = s.lastTranslatedText) ∧
    (∀ (cfg : LoopCfg) (s : LoopState) (e : IterIn),
      e.r0 = true → e.r1a = true → e.r2 = true → e.r3 = true → e.r4 = true →
      e.r5a = true → e.r6 = true →
      readText e.sourceRead ≠ [] →
      ¬ (readText e.sourceRead = s.lastSourceText ∧ 3 ≤ s.sameSourceCount + 1) →
      ¬ (cfg.skipTranslated = true ∧ readText e.targetRead ≠ [] ∧
          pyStrip (readText e.targetRead) ≠ []) →
      wait_for_translation_result ⟨cfg.checkConsistency, cfg.convertNewlines, cfg.maxChecks⟩
        (readText e.sourceRead) s.lastTranslatedText e.wait ≠ [] →
      (stepIter cfg s e).pastedTarget =
        some (wait_for_translation_result
          ⟨cfg.checkConsistency, cfg.convertNewlines, cfg.maxChecks⟩
          (readText e.sourceRead) s.lastTranslatedText e.wait)) ∧
    (∀ (cfg : WaitCfg) (original last : Str) (env : WaitEnv),
      cfg.checkConsistency = true → cfg.convertNewlines = false →
      env.baselineRaise = false → env.first ≠ CopySample.actionRaise →
      (∀ i, env.samples i ≠ CopySample.actionRaise) → (∀ i, env.running i = true) →
      (∀ i, i < cfg.maxChecks → ¬ isFresh false original last (sampleSeq env i)) →
      wait_for_translation_result cfg original last env =
        (if sampleSeq env cfg.maxChecks ≠ [] ∧
            pyIsSpace (sampleSeq env cfg.maxChecks) = false
         then sampleSeq env cfg.maxChecks else [])) := by
  refine ⟨?_, ?_, ?_⟩
  · intro cfg s e hr0 hr1 hr2 hr3 hr4 hr5b hsrc hnat hskip hw
    simp only [stepIter]
    rw [if_neg (by simp [hr0] : ¬ e.r0 = false)]
    rw [if_neg (by simp [hsrc, hr1] : ¬ (readText e.sourceRead = [] ∨ e.r1a = false))]
    rw [if_neg (show ¬ (readText e.sourceRead = s.lastSourceText ∧
        3 ≤ if readText e.sourceRead = s.lastSourceText then s.sameSourceCount + 1 else 0) by
      intro hcond
      rw [if_pos hcond.1] at hcond
      exact hnat hcond)]
    rw [if_neg (by simp [hr2] : ¬ e.r2 = false)]
    rw [if_neg hskip]
    simp only [stepTranslate]
    rw [if_neg (by simp [hr3] : ¬ e.r3 = false)]
    rw [if_neg (by simp [hr4] : ¬ e.r4 = false)]
    rw [if_pos (Or.inl hw)]
    rw [if_neg (by simp [hr5b] : ¬ e.r5b = false)]
    exact ⟨rfl, rfl, rfl, rfl⟩
  · intro cfg s e hr0 hr1 hr2 hr3 hr4 hr5a hr6 hsrc hnat hskip hw
    simp only [stepIter]
    rw [if_neg (by simp [hr0] : ¬ e.r0 = false)]
    rw [if_neg (by simp [hsrc, hr1] : ¬ (readText e.sourceRead = [] ∨ e.r1a = false))]
    rw [if_neg (show ¬ (readText e.sourceRead = s.lastSourceText ∧
        3 ≤ if readText e.sourceRead = s.lastSourceText then s.sameSourceCount + 1 else 0) by
      intro hcond
      rw [if_pos hcond.1] at hcond
      exact hnat hcond)]
    rw [if_neg (by simp [hr2] : ¬ e.r2 = false)]
    rw [if_neg hskip]
    simp only [stepTranslate]
    rw [if_neg (by simp [hr3] : ¬ e.r3 = false)]
    rw [if_neg (by simp [hr4] : ¬ e.r4 = false)]
    rw [if_neg (by simp [hw, hr5a] :
      ¬ (wait_for_translation_result
          ⟨cfg.checkConsistency, cfg.convertNewlines, cfg.maxChecks⟩
          (readText e.sourceRead) s.lastTranslatedText e.wait = [] ∨ e.r5a = false))]
    rw [if_neg (by simp [hr6] : ¬ e.r6 = false)]
  · intro cfg original last env hcc hconv hbase hfirst hraise hrun hnofresh
    obtain ⟨raw, hf⟩ : ∃ raw, env.first = CopySample.clip raw := by
      cases henv : env.first with
      | actionRaise => exact absurd henv hfirst
      | clip raw => exact ⟨raw, rfl⟩
    rw [wait_shape cfg original last env hbase raw hf hcc, hconv]
    have hv : ∀ i, sampleSeq env (i + 1) = (env.samples i).val := fun i => rfl
    have hl := consistencyLoop_exhaust hrun hraise (sampleSeq env) hv cfg.maxChecks 0
      (fun i hi1 hi2 => hnofresh i (by omega))
    rw [Nat.zero_add] at hl
    simp only [hl]
    exact finishWait_false (sampleSeq env cfg.maxChecks)

/-- C8, witness: a failed wait (empty result) skips the field without
pasting, and the exhaustion formula evaluated on an all-Echo run returns
the final sample `"hello"` as a best-effort result. -/
theorem claim_C8_witness :
    ((stepIter cfgC1 initState
        { envC1 0 with wait := ⟨true, CopySample.clip (some "x".data),
          fun _ => CopySample.clip (some "x".data), fun _ => true⟩ }).pastedTarget =
      none) ∧
    wait_for_translation_result ⟨true, false, 2⟩ "hello".data "prev".data
      ⟨false, CopySample.clip (some "hello".data),
        fun _ => CopySample.clip (some "hello".data), fun _ => true⟩ =
      "hello".data := by
  constructor
  · exact (claim_C8.1 cfgC1 initState
      { envC1 0 with wait := ⟨true, CopySample.clip (some "x".data),
        fun _ => CopySample.clip (some "x".data), fun _ => true⟩ }
      rfl rfl rfl rfl rfl rfl (by decide) (by decide) (by decide) rfl).1
  · have h := claim_C8.2.2 ⟨true, false, 2⟩ "hello".data "prev".data
      ⟨false, CopySample.clip (some "hello".data),
        fun _ => CopySample.clip (some "hello".data), fun _ => true⟩
      rfl rfl rfl (by decide) (fun i h => CopySample.noConfusion h) (fun i => rfl)
      (by decide)
    simpa using h

/-- C9: every clipboard read the engine performs returns trimmed text
(stripping is idempotent, so the returned value carries no surrounding
whitespace), a raising clipboard read returns the empty string instead of
propagating, and consequently a whitespace-only source field is
indistinguishable from an empty one: the loop terminates as
no-more-content. -/
theorem claim_C9 :
    (∀ raw : Str, pyStrip (get_clipboard_content (some raw)) =
      get_clipboard_content (some raw)) ∧
    get_clipboard_content none = [] ∧
    (∀ (raw : Str) (cfg : LoopCfg) (s : LoopState) (e : IterIn),
      (∀ c ∈ raw, pyWS c = true) →
      e.r0 = true → e.r1b = true → e.sourceRead = ReadOutcome.clip (some raw) →
      (stepIter cfg s e).outcome = Outcome.noMoreContent) := by
  refine ⟨?_, rfl, ?_⟩
  · intro raw
    exact pyStrip_idem raw
  · intro raw cfg s e hws hr0 hr1b hsrc
    have hempty : readText e.sourceRead = [] := by
      rw [hsrc]
      exact pyStrip_all_ws hws
    simp only [stepIter]
    rw [if_neg (by simp [hr0] : ¬ e.r0 = false)]
    rw [if_pos (Or.inl hempty)]
    rw [if_neg (by simp [hr1b] : ¬ e.r1b = false)]

/-- C9, witness: a whitespace-only source field ends the run as
no-more-content. -/
theorem claim_C9_witness :
    (stepIter cfgC1 initState
      { envC1 0 with sourceRead := ReadOutcome.clip (some "  \t ".data) }).outcome =
      Outcome.noMoreContent :=
  claim_C9.2.2 "  \t ".data cfgC1 initState
    { envC1 0 with sourceRead := ReadOutcome.clip (some "  \t ".data) }
    (by decide) rfl rfl rfl

theorem stepTranslate_pasted (cfg : LoopCfg) (s1 : LoopState) (src : Str) (e : IterIn) :
    ((stepTranslate cfg s1 src e).pastedTarget = none →
      (stepTranslate cfg s1 src e).state.lastTranslatedText = s1.lastTranslatedText) ∧
    (∀ t, (stepTranslate cfg s1 src e).pastedTarget = some t →
      t ≠ [] ∧ (stepTranslate cfg s1 src e).state.lastTranslatedText = t) := by
  simp only [stepTranslate]
  split_ifs with h1 h2 h3 h4 h5
  · exact ⟨fun _ => rfl, fun t ht => by simp at ht⟩
  · exact ⟨fun _ => rfl, fun t ht => by simp at ht⟩
  · exact ⟨fun _ => rfl, fun t ht => by simp at ht⟩
  · exact ⟨fun _ => rfl, fun t ht => by simp at ht⟩
  · exact ⟨fun _ => rfl, fun t ht => by simp at ht⟩
  · refine ⟨fun h => by simp at h, fun t ht => ?_⟩
    have hne : wait_for_translation_result
        ⟨cfg.checkConsistency, cfg.convertNewlines, cfg.maxChecks⟩
        src s1.lastTranslatedText e.wait ≠ [] := fun hh => h3 (Or.inl hh)
    have ht' := Option.some_injective _ ht
    exact ⟨ht' ▸ hne, ht' ▸ rfl⟩

/-- C10: across one loop iteration, the previous-translation record
changes only when a non-empty result is pasted into the target field, and
it is then set exactly to the pasted text; every iteration that pastes
nothing (skip, failure, timeout or early stop) leaves it unchanged. -/
theorem claim_C10 (cfg : LoopCfg) (s : LoopState) (e : IterIn) :
    ((stepIter cfg s e).pastedTarget = none →
      (stepIter cfg s e).state.lastTranslatedText = s.lastTranslatedText) ∧
    (∀ t, (stepIter cfg s e).pastedTarget = some t →
      t ≠ [] ∧ (stepIter cfg s e).state.lastTranslatedText = t) ∧
    ((stepIter cfg s e).state.lastTranslatedText ≠ s.lastTranslatedText →
      ∃ t, (stepIter cfg s e).pastedTarget = some t ∧ t ≠ [] ∧
        (stepIter cfg s e).state.lastTranslatedText = t) := by
  have hmain : ((stepIter cfg s e).pastedTarget = none →
      (stepIter cfg s e).state.lastTranslatedText = s.lastTranslatedText) ∧
      (∀ t, (stepIter cfg s e).pastedTarget = some t →
        t ≠ [] ∧ (stepIter cfg s e).state.lastTranslatedText = t) := by
    simp only [stepIter]
    split_ifs <;>
      first
        | exact ⟨fun _ => rfl, fun t ht => by simp at ht⟩
        | exact stepTranslate_pasted ..
  refine ⟨hmain.1, hmain.2, ?_⟩
  intro hne
  cases hp : (stepIter cfg s e).pastedTarget with
  | none => exact absurd (hmain.1 hp) hne
  | some t => exact ⟨t, rfl, (hmain.2 t hp).1, (hmain.2 t hp).2⟩

/-- C10, witness: an iteration that pastes the fresh result `"bonjour"`
records exactly that text as the new previous translation. -/
theorem claim_C10_witness :
    "bonjour".data ≠ [] ∧
    (stepIter cfgC1 initState (envC1 0)).state.lastTranslatedText = "bonjour".data :=
  (claim_C10 cfgC1 initState (envC1 0)).2.1 "bonjour".data (by decide)

theorem comboMainKey_ne_nil {raw k : Str} (hk : comboMainKey raw = some k) : k ≠ [] := by
  have hmem : k ∈ (comboParts raw).reverse := List.mem_of_find?_eq_some hk
  rw [List.mem_reverse] at hmem
  unfold comboParts at hmem
  have := (List.mem_filter.mp hmem).2
  simpa using this

/-- C4: for every configured start spec whose parse yields a main key `k`,
the installed handler raises the start action exactly on key-down events
whose key name equals `k` while every configured modifier is held and no
modifier outside the configured set is held (and never while key binding
is in progress). -/
theorem claim_C4 (startRaw stopRaw : Str) (k : Str)
    (hk : comboMainKey startRaw = some k)
    (eventType eventName : Str) (pressed : Str → Bool) :
    hotkeyHandler startRaw stopRaw false eventType eventName pressed = HotkeyAction.start ↔
      (eventType = "down".data ∧ eventName = k ∧
        (∀ m ∈ comboModifiers startRaw, pressed m = true) ∧
        (∀ m ∈ MODS, m ∉ comboModifiers startRaw → pressed m = false)) := by
  have hkne : k ≠ [] := comboMainKey_ne_nil hk
  unfold hotkeyHandler
  rw [if_neg (by simp : ¬ (false = true))]
  by_cases het : eventType = "down".data
  · rw [if_neg (by simp [het] : ¬ eventType ≠ "down".data)]
    by_cases hst : specTriggers startRaw eventName pressed = true
    · rw [if_pos hst]
      unfold specTriggers at hst
      simp only [hk] at hst
      by_cases hcond : k ≠ [] ∧ eventName = k
      · rw [if_pos hcond] at hst
        have hmm := of_decide_eq_true hst
        constructor
        · intro _
          exact ⟨het, hcond.2, hmm.1, hmm.2⟩
        · intro _
          rfl
      · rw [if_neg hcond] at hst
        exact absurd hst (by simp)
    · rw [if_neg hst]
      constructor
      · intro h
        by_cases hsp : specTriggers stopRaw eventName pressed = true
        · rw [if_pos hsp] at h
          exact absurd h (by simp)
        · rw [if_neg hsp] at h
          exact absurd h (by simp)
      · intro hR
        exfalso
        apply hst
        unfold specTriggers
        simp only [hk]
        rw [if_pos (And.intro hkne hR.2.1)]
        exact decide_eq_true ⟨hR.2.2.1, hR.2.2.2⟩
  · rw [if_pos (by simpa using het : eventType ≠ "down".data)]
    constructor
    · intro h
      exact absurd h (by simp)
    · intro hR
      exact absurd hR.1 het

/-- C4, witness: the spec `"ctrl+s"` (modifier set `{ctrl}`, main key
`"s"`) accepts ctrl+s on the key-down edge and rejects ctrl+shift+s,
plain s, and the key-up event. -/
theorem claim_C4_witness :
    hotkeyHandler "ctrl+s".data "f10".data false "down".data "s".data
      (fun m => decide (m = "ctrl".data)) = HotkeyAction.start ∧
    hotkeyHandler "ctrl+s".data "f10".data false "down".data "s".data
      (fun m => decide (m = "ctrl".data ∨ m = "shift".data)) ≠ HotkeyAction.start ∧
    hotkeyHandler "ctrl+s".data "f10".data false "down".data "s".data
      (fun _ => false) ≠ HotkeyAction.start ∧
    hotkeyHandler "ctrl+s".data "f10".data false "up".data "s".data
      (fun m => decide (m = "ctrl".data)) ≠ HotkeyAction.start := by
  refine ⟨?_, ?_, ?_, ?_⟩
  · exact (claim_C4 "ctrl+s".data "f10".data "s".data (by decide) "down".data "s".data
      (fun m => decide (m = "ctrl".data))).mpr (by decide)
  · intro h
    exact absurd ((claim_C4 "ctrl+s".data "f10".data "s".data (by decide) "down".data "s".data
      (fun m => decide (m = "ctrl".data ∨ m = "shift".data))).mp h) (by decide)
  · intro h
    exact absurd ((claim_C4 "ctrl+s".data "f10".data "s".data (by decide) "down".data "s".data
      (fun _ => false)).mp h) (by decide)
  · intro h
    exact absurd ((claim_C4 "ctrl+s".data "f10".data "s".data (by decide) "up".data "s".data
      (fun m => decide (m = "ctrl".data))).mp h) (by decide)

/-- C6: the run starts exactly when every required coordinate is set; a
refusal reports a coordinate that is indeed unset and required; and for
the four selectable copy methods the required set is the three base
coordinates plus the copy button (method 0), or the result box (methods
1-3), plus the gesture position exactly when the scroll gesture is
enabled. -/
theorem claim_C6 (c : Coords) (cm : Int) (g : Bool) :
    (start_translation c cm g = StartResult.started ↔
      ∀ k ∈ requiredKeys cm g, getCoord c k ≠ none) ∧
    (∀ k, start_translation c cm g = StartResult.refused k →
      getCoord c k = none ∧ k ∈ requiredKeys cm g) ∧
    ((cm = 0 ∨ cm = 1 ∨ cm = 2 ∨ cm = 3) → ∀ k : CoordKey,
      (k ∈ requiredKeys cm g ↔
        (k = CoordKey.poedit_source ∨ k = CoordKey.poedit_target ∨
         k = CoordKey.service_source ∨
         (k = CoordKey.service_copy_button ∧ cm = 0) ∨
         (k = CoordKey.service_result_box ∧ (cm = 1 ∨ cm = 2 ∨ cm = 3)) ∨
         (k = CoordKey.scroll_gesture_position ∧ g = true)))) := by
  refine ⟨?_, ?_, ?_⟩
  · unfold start_translation
    cases hfind : (requiredKeys cm g).find? (fun k => (getCoord c k).isNone) with
    | none =>
      simp only []
      constructor
      · intro _ k hk
        have hnot := List.find?_eq_none.mp hfind k hk
        simpa [Option.isNone_iff_eq_none] using hnot
      · intro _
        trivial
    | some k =>
      simp only []
      constructor
      · intro h
        exact absurd h (by simp)
      · intro hall
        exfalso
        have hmem := List.mem_of_find?_eq_some hfind
        have hpk := List.find?_some hfind
        rw [Option.isNone_iff_eq_none] at hpk
        exact (hall k hmem) hpk
  · intro k hk
    unfold start_translation at hk
    cases hfind : (requiredKeys cm g).find? (fun k => (getCoord c k).isNone) with
    | none =>
      rw [hfind] at hk
      exact absurd hk (by simp)
    | some k' =>
      rw [hfind] at hk
      have hkk : k' = k := by
        have : StartResult.refused k' = StartResult.refused k := hk
        cases this
        rfl
      subst hkk
      have hmem := List.mem_of_find?_eq_some hfind
      have hpk := List.find?_some hfind
      rw [Option.isNone_iff_eq_none] at hpk
      exact ⟨hpk, hmem⟩
  · intro hcm k
    rcases hcm with rfl | rfl | rfl | rfl <;> cases g <;> cases k <;> decide

/-- C6, witness: with every coordinate set the run starts; with the copy
button unset under copy method 0 the start is refused, reporting that
coordinate, which is indeed required. -/
theorem claim_C6_witness :
    start_translation
      ⟨some (1, 2), some (3, 4), some (5, 6), some (7, 8), some (9, 10), some (11, 12)⟩
      0 false = StartResult.started ∧
    (getCoord
        ⟨some (1, 2), some (3, 4), some (5, 6), none, some (9, 10), some (11, 12)⟩
        CoordKey.service_copy_button = none ∧
      CoordKey.service_copy_button ∈ requiredKeys 0 false) := by
  constructor
  · exact (claim_C6
      ⟨some (1, 2), some (3, 4), some (5, 6), some (7, 8), some (9, 10), some (11, 12)⟩
      0 false).1.mpr (by decide)
  · exact (claim_C6
      ⟨some (1, 2), some (3, 4), some (5, 6), none, some (9, 10), some (11, 12)⟩
      0 false).2.1 CoordKey.service_copy_button (by decide)

end Poedit
